import Mathlib

/-
Verification of the pyrepgen commit-report pipeline.

The repository's entry point (`src/pyrepgen/__main__.py`) drives a pipeline
imported from `gitlab_fetch`: fetch (or replay from a JSON cache), drop merge
commits, keep one author's commits, bucket them per calendar day, and fill the
gaps so the series is dense, before handing two parallel lists (dates, counts)
to `plot_manager.create_commit_plot`.

Calendar days are embedded as natural day ordinals (days since 0000-03-01 in
the proleptic Gregorian calendar, computed by `dayNumber`); one calendar day
later is `+ 1` on the ordinal, and chronological order is the order on `Nat`.
A timestamp carries its day ordinal plus a time-of-day component that the
pipeline truncates away.
-/

/-- A commit timestamp with at least day resolution: the calendar-day ordinal
and the remaining time-of-day, which aggregation truncates away. -/
structure Timestamp where
  day : Nat
  timeOfDay : Nat
  deriving DecidableEq

/-- One repository commit as returned by the remote API / the JSON cache:
opaque id, ordered parent ids, author email, authored timestamp. -/
structure Commit where
  id : String
  parent_ids : List String
  author_email : String
  authored_date : Timestamp
  deriving DecidableEq

/-- A sparse date-to-count mapping (a Python dict keyed by calendar day):
the key set together with the stored count for each day. -/
structure SparseHistogram where
  keys : Finset Nat
  count : Nat → Nat

/-- The sparse histogram of the empty dict: no keys at all. -/
def empty_sparse_histogram : SparseHistogram :=
  { keys := ∅, count := fun _ => 0 }

/-- Modelled from the spec: `filter_out_merge_commits` of the repository's
`gitlab_fetch` module (absent from `src/`; only its caller at
`__main__.py:151` is present). §4.3 MergeFilter: keep only commits with
`len(parent_ids) <= 1`, pure and order-preserving. -/
def filter_out_merge_commits (commits : List Commit) : List Commit :=
  commits.filter (fun c => c.parent_ids.length ≤ 1)

/-- Modelled from the spec: `filter_commits_by_author_email` of the missing
`gitlab_fetch` module (caller at `__main__.py:155`). §4.4 AuthorFilter: keep
only commits whose `author_email` equals the target under exact, case-sensitive
string comparison, order-preserving. -/
def filter_commits_by_author_email (commits : List Commit) (target_email : String) :
    List Commit :=
  commits.filter (fun c => c.author_email == target_email)

/-- One step of histogram building: truncate the commit's `authored_date` to
its calendar day and increment that day's counter (a key absent from the dict
is created at 1, i.e. incremented from the default 0). -/
def histogram_add_commit (h : SparseHistogram) (c : Commit) : SparseHistogram :=
  { keys := insert c.authored_date.day h.keys
    count := fun d => if d = c.authored_date.day then h.count d + 1 else h.count d }

/-- Modelled from the spec: `build_commit_histogram_by_date` of the missing
`gitlab_fetch` module (caller at `__main__.py:159`). §4.5 HistogramBuilder:
for each commit, truncate `authored_date` to its calendar day and increment
that day's counter, starting from the empty dict. -/
def build_commit_histogram_by_date (commits : List Commit) : SparseHistogram :=
  commits.foldl histogram_add_commit empty_sparse_histogram

/-- §4.6/§7: the fatal error raised when the gap filler receives an empty
histogram. -/
inductive EmptyHistogramError where
  | emptyHistogram
  deriving DecidableEq

/-- Modelled from the spec: `fill_missing_days_in_histogram` of the missing
`gitlab_fetch` module (caller at `__main__.py:160` unpacks its result into the
two parallel lists `all_dates, all_counts`). §4.6 GapFiller: fail with
`EmptyHistogramError` on an empty histogram; otherwise take `min_date` and
`max_date` over the sparse keys and emit one entry per calendar day of
`[min_date, max_date]` in ascending order, a present day keeping its stored
count and an absent day getting count 0. -/
def fill_missing_days_in_histogram (h : SparseHistogram) :
    Except EmptyHistogramError (List Nat × List Nat) :=
  if hne : h.keys.Nonempty then
    let mn := h.keys.min' hne
    let mx := h.keys.max' hne
    let days := List.range' mn (mx - mn + 1)
    Except.ok (days, days.map (fun d => if d ∈ h.keys then h.count d else 0))
  else
    Except.error EmptyHistogramError.emptyHistogram

/-- Feeding a dense series (parallel date and count lists) back through the
histogram builder means presenting, for each entry, `count` commits authored
on that entry's day; this expands the entries into such a synthetic commit
list. -/
def dense_series_to_commits : List (Nat × Nat) → List Commit
  | [] => []
  | e :: rest =>
    List.replicate e.2
        { id := "", parent_ids := [], author_email := "",
          authored_date := { day := e.1, timeOfDay := 0 } } ++
      dense_series_to_commits rest

/-- Modelled from the spec: the pagination loop of `fetch_all_commits` of the
missing `gitlab_fetch` module (caller at `__main__.py:140`). §4.1 Fetcher:
request page `p`, append its records, and stop as soon as a page returns
strictly fewer records than the requested page size (an empty page included);
otherwise continue with page `p + 1`. The loop is run under an explicit page
budget (the fuel argument) so that it is total; alongside the accumulated
records it returns the list of page numbers actually requested. -/
def fetch_pages_from (pages : Nat → List Commit) (per_page : Nat) :
    Nat → Nat → List Commit × List Nat
  | 0, _ => ([], [])
  | fuel + 1, p =>
    let recs := pages p
    if recs.length < per_page then (recs, [p])
    else
      let rest := fetch_pages_from pages per_page fuel (p + 1)
      (recs ++ rest.1, p :: rest.2)

/-- Modelled from the spec: `fetch_all_commits` of the missing `gitlab_fetch`
module. §4.1: pagination starts at page 1; records accumulate in API-returned
order across pages. (The cache write-back side effect of §4.1 is outside this
model.) -/
def fetch_all_commits (pages : Nat → List Commit) (per_page : Nat)
    (page_budget : Nat) : List Commit × List Nat :=
  fetch_pages_from pages per_page page_budget 1

/-- Outcome of the read-mode commit loading in `main`
(`__main__.py:121`-`130`): a successfully parsed commit list, a handled error
exit via `sys.exit(code)`, or an exception that propagates uncaught out of
`main`. -/
inductive ReadOutcome where
  | ok (commits : List Commit)
  | exitCode (code : Nat)
  | uncaughtExc (exc : String)
  deriving DecidableEq

/-- Read-mode commit loading of `main` (`__main__.py:121`-`130`), with the
file system and the JSON parser abstracted as functions: `open` on a path the
file system lacks raises `FileNotFoundError`, which `main` catches and turns
into `sys.exit(1)`; on a present file, `json.load` either yields the commit
list or raises `json.JSONDecodeError`, which no handler in `main` catches. -/
def read_mode_load (fileContents : String → Option String)
    (parseJsonCommits : String → Option (List Commit)) (input_path : String) :
    ReadOutcome :=
  match fileContents input_path with
  | none => ReadOutcome.exitCode 1
  | some content =>
    match parseJsonCommits content with
    | none => ReadOutcome.uncaughtExc ("json.JSONDecodeError")
    | some commits => ReadOutcome.ok commits

/-- Day ordinal of a proleptic Gregorian calendar date (days since
0000-03-01), so that chronological order of dates is the order of ordinals
and consecutive days have consecutive ordinals. -/
def dayNumber (y m d : Nat) : Nat :=
  let yShift := if m ≤ 2 then y - 1 else y
  let era := yShift / 400
  let yoe := yShift % 400
  let mp := (m + 9) % 12
  let doy := (153 * mp + 2) / 5 + d - 1
  let doe := yoe * 365 + yoe / 4 - yoe / 100 + doy
  era * 146097 + doe

/-- The hard-coded left marker of `create_commit_plot`
(`plot_manager.py:60`): `datetime(2024, 9, 20).date()`. -/
def first_commit : Nat := dayNumber 2024 9 20

/-- The hard-coded right marker of `create_commit_plot`
(`plot_manager.py:61`): `datetime(2024, 10, 14).date()`. -/
def last_commit : Nat := dayNumber 2024 10 14

/-- The total-commits figure `create_commit_plot` computes and displays
(`plot_manager.py:110`-`114`): iterate over `zip(all_dates, all_counts)` and
add the count whenever `first_commit <= d <= last_commit`. -/
def create_commit_plot_total_commits (all_dates all_counts : List Nat) : Nat :=
  (all_dates.zip all_counts).foldl
    (fun total dc =>
      if first_commit ≤ dc.1 ∧ dc.1 ≤ last_commit then total + dc.2 else total)
    0

/-- The parameter list of `create_commit_plot` (`plot_manager.py:7`-`9`);
the function declares no `**kwargs` catch-all. -/
def create_commit_plot_params : List String :=
  ["all_dates", "all_counts", "author", "email"]

/-- The keyword-argument names `main` passes to `create_commit_plot`
(`__main__.py:167`-`178`). -/
def main_create_commit_plot_kwargs : List String :=
  ["all_dates", "all_counts", "email", "author",
   "x_lim_start", "x_lim_end", "y_lim_top", "y_lim_bottom",
   "marker_left", "marker_right"]

/-- Keyword arguments of a Python call that the callee's parameter list does
not declare. -/
def unexpected_kwargs (params kwargs : List String) : List String :=
  kwargs.filter (fun k => !(params.contains k))

/-- A Python call binding keyword arguments against a parameter list without a
`**kwargs` catch-all raises `TypeError` exactly when some keyword is not among
the declared parameters. -/
def python_call_raises_type_error (params kwargs : List String) : Bool :=
  !(unexpected_kwargs params kwargs).isEmpty

/-- A concrete sparse histogram used to instantiate the gap-filler theorems:
two commits on day 10 and one on day 12, day 11 absent. -/
def ex_hist : SparseHistogram :=
  { keys := {10, 12}
    count := fun d => if d = 10 then 2 else if d = 12 then 1 else 0 }

/-- A concrete regular commit (one parent) used to instantiate theorems. -/
def ex_commit_a : Commit :=
  { id := "a", parent_ids := ["p"], author_email := "alice@mail",
    authored_date := { day := 10, timeOfDay := 7 } }

/-- A concrete root commit (no parent) used to instantiate theorems. -/
def ex_commit_b : Commit :=
  { id := "b", parent_ids := [], author_email := "bob@mail",
    authored_date := { day := 10, timeOfDay := 9 } }

/-- A concrete merge commit (two parents) used to instantiate theorems. -/
def ex_commit_m : Commit :=
  { id := "m", parent_ids := ["a", "b"], author_email := "alice@mail",
    authored_date := { day := 12, timeOfDay := 0 } }

/-- A concrete paginated page source: pages 1 to 3 hold two records each,
page 4 holds a single record (short), later pages are empty. -/
def stub_pages : Nat → List Commit :=
  fun p =>
    if p ≤ 3 then
      [{ id := toString p, parent_ids := [], author_email := "x",
         authored_date := { day := p, timeOfDay := 0 } },
       { id := toString p ++ "b", parent_ids := [], author_email := "x",
         authored_date := { day := p, timeOfDay := 1 } }]
    else if p = 4 then
      [{ id := "last", parent_ids := [], author_email := "x",
         authored_date := { day := 4, timeOfDay := 0 } }]
    else []

/-- Extensionality for sparse histograms: equal key sets and equal count
functions give equal histograms. -/
theorem SparseHistogram.ext' :
    ∀ {a b : SparseHistogram}, a.keys = b.keys → a.count = b.count → a = b
  | ⟨_, _⟩, ⟨_, _⟩, rfl, rfl => rfl

/-- Folding commits into any starting histogram adds, per day, the number of
commits authored on that day. -/
theorem build_foldl_count (l : List Commit) (h : SparseHistogram) (d : Nat) :
    (l.foldl histogram_add_commit h).count d =
      h.count d + l.countP (fun c => c.authored_date.day == d) := by
  induction l generalizing h with
  | nil => simp
  | cons c l ih =>
    rw [List.foldl_cons, ih, List.countP_cons]
    by_cases hd : d = c.authored_date.day
    · simp [histogram_add_commit, hd]
      omega
    · simp [histogram_add_commit, hd, Ne.symm hd]

/-- The histogram's stored count for a day is the number of commits whose
timestamp truncates to that day. -/
theorem build_count (l : List Commit) (d : Nat) :
    (build_commit_histogram_by_date l).count d =
      l.countP (fun c => c.authored_date.day == d) := by
  simp [build_commit_histogram_by_date, build_foldl_count, empty_sparse_histogram]

/-- Folding commits into any starting histogram adjoins exactly the commits'
truncated days to the key set. -/
theorem build_foldl_keys (l : List Commit) (h : SparseHistogram) :
    (l.foldl histogram_add_commit h).keys =
      h.keys ∪ (l.map (fun c => c.authored_date.day)).toFinset := by
  induction l generalizing h with
  | nil => simp
  | cons c l ih =>
    rw [List.foldl_cons, ih]
    simp [histogram_add_commit, Finset.insert_union, Finset.union_insert]

/-- The histogram's key set is exactly the set of truncated commit days. -/
theorem build_keys (l : List Commit) :
    (build_commit_histogram_by_date l).keys =
      (l.map (fun c => c.authored_date.day)).toFinset := by
  simp [build_commit_histogram_by_date, build_foldl_keys, empty_sparse_histogram]

/-- A day is a key of the built histogram exactly when its stored count is
nonzero. -/
theorem build_mem_keys_iff (l : List Commit) (d : Nat) :
    d ∈ (build_commit_histogram_by_date l).keys ↔
      (build_commit_histogram_by_date l).count d ≠ 0 := by
  rw [build_keys, build_count, List.mem_toFinset]
  constructor
  · intro hd
    rw [List.mem_map] at hd
    obtain ⟨c, hc, hcd⟩ := hd
    have hpos : 0 < l.countP (fun c => c.authored_date.day == d) :=
      List.countP_pos_iff.mpr ⟨c, hc, by simp [hcd]⟩
    omega
  · intro h0
    obtain ⟨c, hc, hcd⟩ := List.countP_pos_iff.mp (Nat.pos_of_ne_zero h0)
    rw [List.mem_map]
    exact ⟨c, hc, by simpa using hcd⟩

/-- On a non-empty histogram the gap filler returns the day range from the
least to the greatest key together with the looked-up counts. -/
theorem fill_missing_days_eq (h : SparseHistogram) (hne : h.keys.Nonempty) :
    fill_missing_days_in_histogram h =
      Except.ok
        (List.range' (h.keys.min' hne) (h.keys.max' hne - h.keys.min' hne + 1),
         (List.range' (h.keys.min' hne)
             (h.keys.max' hne - h.keys.min' hne + 1)).map
           (fun d => if d ∈ h.keys then h.count d else 0)) := by
  simp [fill_missing_days_in_histogram, hne]

/-- The gap filler only reads a histogram's key set and the counts stored at
its keys. -/
theorem fill_missing_days_congr :
    ∀ (h1 h2 : SparseHistogram), h1.keys = h2.keys →
      (∀ d ∈ h1.keys, h1.count d = h2.count d) →
      fill_missing_days_in_histogram h1 = fill_missing_days_in_histogram h2
  | ⟨k1, c1⟩, ⟨k2, c2⟩, hk, hc => by
    dsimp at hk
    subst hk
    dsimp at hc
    unfold fill_missing_days_in_histogram
    by_cases hne : k1.Nonempty
    · rw [dif_pos hne, dif_pos hne]
      dsimp
      have hfun : (fun d => if d ∈ k1 then c1 d else 0) =
          (fun d => if d ∈ k1 then c2 d else 0) := by
        funext d
        by_cases hd : d ∈ k1
        · simp [hd, hc d hd]
        · simp [hd]
      rw [hfun]
    · rw [dif_neg hne, dif_neg hne]

/-- A contiguous ascending day range is a chain whose consecutive entries are
one day apart. -/
theorem chain'_succ_range' (s n : Nat) :
    List.Chain' (fun a b => b = a + 1) (List.range' s n) := by
  induction n generalizing s with
  | zero => simp
  | succ n ih =>
    rw [List.range'_succ]
    refine List.chain'_cons'.mpr ⟨?_, ih (s + 1)⟩
    intro b hb
    cases n with
    | zero => simp at hb
    | succ m =>
      rw [List.range'_succ] at hb
      simp at hb
      omega

/-- Claim C2: applying the gap filler to the empty sparse histogram (no dates
at all) does not return a series but fails with `EmptyHistogramError`. -/
theorem fill_missing_days_in_histogram_empty_fails :
    fill_missing_days_in_histogram empty_sparse_histogram =
      Except.error EmptyHistogramError.emptyHistogram := by
  simp [fill_missing_days_in_histogram, empty_sparse_histogram]

/-- Claim C3: `filter_out_merge_commits` is exactly the order-preserving
subsequence of its input made of the commits with at most one parent, each
kept unchanged with its multiplicity; every output commit has at most one
parent, and empty input yields empty output. (The model is a pure function,
so it has no side effects.) -/
theorem filter_out_merge_commits_spec (L : List Commit) :
    List.Sublist (filter_out_merge_commits L) L ∧
    (∀ c, c ∈ filter_out_merge_commits L ↔ c ∈ L ∧ c.parent_ids.length ≤ 1) ∧
    (∀ c, List.count c (filter_out_merge_commits L) =
      if c.parent_ids.length ≤ 1 then List.count c L else 0) ∧
    filter_out_merge_commits [] = [] := by
  refine ⟨List.filter_sublist L, ?_, ?_, rfl⟩
  · intro c
    simp [filter_out_merge_commits, List.mem_filter]
  · intro c
    by_cases hc : c.parent_ids.length ≤ 1
    · rw [if_pos hc]
      exact List.count_filter (by simpa using hc)
    · rw [if_neg hc, List.count_eq_zero]
      simp [filter_out_merge_commits, List.mem_filter, hc]

/-- Claim C4: `filter_commits_by_author_email` is exactly the order-preserving
subsequence of the commits whose `author_email` equals the target under exact,
case-sensitive string equality (no case normalization), each kept unchanged
with its multiplicity, and filtering twice with the same email equals
filtering once. -/
theorem filter_commits_by_author_email_spec (L : List Commit) (e : String) :
    List.Sublist (filter_commits_by_author_email L e) L ∧
    (∀ c, c ∈ filter_commits_by_author_email L e ↔ c ∈ L ∧ c.author_email = e) ∧
    (∀ c, List.count c (filter_commits_by_author_email L e) =
      if c.author_email = e then List.count c L else 0) ∧
    filter_commits_by_author_email (filter_commits_by_author_email L e) e =
      filter_commits_by_author_email L e := by
  refine ⟨List.filter_sublist L, ?_, ?_, ?_⟩
  · intro c
    simp [filter_commits_by_author_email, List.mem_filter]
  · intro c
    by_cases hc : c.author_email = e
    · rw [if_pos hc]
      exact List.count_filter (by simpa using hc)
    · rw [if_neg hc, List.count_eq_zero]
      simp [filter_commits_by_author_email, List.mem_filter, hc]
  · simp [filter_commits_by_author_email, List.filter_filter]

/-- Claim C5: the sparse histogram built by truncating each commit's
`authored_date` to its calendar day and incrementing that day's counter is
invariant under any permutation of the commit list. -/
theorem build_commit_histogram_by_date_perm_invariant (L Lp : List Commit)
    (hperm : List.Perm L Lp) :
    build_commit_histogram_by_date L = build_commit_histogram_by_date Lp := by
  apply SparseHistogram.ext'
  · rw [build_keys, build_keys]
    exact List.toFinset_eq_of_perm _ _ (hperm.map _)
  · funext d
    rw [build_count, build_count]
    exact hperm.countP_eq _

/-- Witness for claim C5 at a concrete input: swapping two commits of a
three-commit list leaves the histogram unchanged. -/
theorem build_commit_histogram_by_date_perm_invariant_witness :
    List.Perm [ex_commit_a, ex_commit_b, ex_commit_m]
      [ex_commit_m, ex_commit_b, ex_commit_a] ∧
    build_commit_histogram_by_date [ex_commit_a, ex_commit_b, ex_commit_m] =
      build_commit_histogram_by_date [ex_commit_m, ex_commit_b, ex_commit_a] :=
  ⟨by decide,
   build_commit_histogram_by_date_perm_invariant _ _ (by decide)⟩

/-- Claim C9: `main` calls `create_commit_plot` with six keyword arguments
that the function's parameter list does not declare, so Python's keyword
binding raises `TypeError` on every such call and the run never reaches the
plotting body. -/
theorem main_create_commit_plot_call_raises_type_error :
    python_call_raises_type_error create_commit_plot_params
        main_create_commit_plot_kwargs = true ∧
    unexpected_kwargs create_commit_plot_params main_create_commit_plot_kwargs =
      ["x_lim_start", "x_lim_end", "y_lim_top", "y_lim_bottom",
       "marker_left", "marker_right"] := by
  exact ⟨rfl, rfl⟩

/-- Accumulating counts through the guarded fold equals the sum of the counts
of the entries that pass the guard. -/
theorem foldl_add_if_eq_sum (p : Nat × Nat → Prop) [DecidablePred p]
    (l : List (Nat × Nat)) (a : Nat) :
    l.foldl (fun total dc => if p dc then total + dc.2 else total) a =
      a + ((l.filter (fun dc => p dc)).map Prod.snd).sum := by
  induction l generalizing a with
  | nil => simp
  | cons dc rest ih =>
    by_cases h : p dc
    · simp [List.filter_cons, h, ih]
      omega
    · simp [List.filter_cons, h, ih]

/-- Claim C10: the total-commits figure `create_commit_plot` displays is the
sum of the counts whose date lies in the hard-coded inclusive window from
2024-09-20 (`first_commit`) to 2024-10-14 (`last_commit`); entries outside
that window contribute nothing, whatever the supplied series' bounds are. -/
theorem create_commit_plot_total_commits_spec (all_dates all_counts : List Nat) :
    create_commit_plot_total_commits all_dates all_counts =
      (((all_dates.zip all_counts).filter
          (fun dc => first_commit ≤ dc.1 ∧ dc.1 ≤ last_commit)).map
        Prod.snd).sum := by
  simpa using
    foldl_add_if_eq_sum
      (fun dc => first_commit ≤ dc.1 ∧ dc.1 ≤ last_commit)
      (all_dates.zip all_counts) 0

/-- Counterexample to claim C7 as stated: on a file that is present but whose
content fails to parse as a JSON commit array, the read-mode load of `main`
does not fail through the handled error path (the claim's `CacheReadError`,
realized in the code as a logged `sys.exit(1)`); the `json.JSONDecodeError`
raised by `json.load` propagates uncaught, since only `FileNotFoundError` is
caught. -/
theorem read_mode_load_unparseable_counterexample :
    read_mode_load (fun _ => some ("garbage")) (fun _ => none) "commits.json" =
      ReadOutcome.uncaughtExc ("json.JSONDecodeError") ∧
    read_mode_load (fun _ => some ("garbage")) (fun _ => none) "commits.json" ≠
      ReadOutcome.exitCode 1 ∧
    (∀ commits : List Commit,
      read_mode_load (fun _ => some ("garbage")) (fun _ => none) "commits.json" ≠
        ReadOutcome.ok commits) := by
  refine ⟨rfl, by decide, ?_⟩
  intro commits h
  exact ReadOutcome.noConfusion h

/-- Claim C7 (amended): the read-mode load of `main` handles only the
missing-file case as a controlled failure: an absent input file is caught
(`FileNotFoundError`) and the run exits with status 1; a present file that
fails to parse makes `json.load` raise `json.JSONDecodeError`, which nothing
in `main` catches, so the run terminates with an uncaught exception (still a
non-zero interpreter exit, but not the handled cache-read error path); a
present, parseable file yields the deserialized commit list. -/
theorem read_mode_load_spec (fileContents : String → Option String)
    (parseJsonCommits : String → Option (List Commit)) (input_path : String) :
    (read_mode_load fileContents parseJsonCommits input_path =
        ReadOutcome.exitCode 1 ↔ fileContents input_path = none) ∧
    (read_mode_load fileContents parseJsonCommits input_path =
        ReadOutcome.uncaughtExc ("json.JSONDecodeError") ↔
      ∃ content, fileContents input_path = some content ∧
        parseJsonCommits content = none) ∧
    (∀ commits, read_mode_load fileContents parseJsonCommits input_path =
        ReadOutcome.ok commits ↔
      ∃ content, fileContents input_path = some content ∧
        parseJsonCommits content = some commits) := by
  unfold read_mode_load
  rcases hfs : fileContents input_path with _ | content
  · simp
  · rcases hp : parseJsonCommits content with _ | commits <;> simp [hp]

/-- Claim C1: on a non-empty sparse histogram the gap filler produces a dense
series with exactly `max_date - min_date + 1` entries, whose dates ascend
strictly with consecutive entries one calendar day apart, which contains every
(date, count) pair of the histogram unchanged, and which assigns count 0 to
every day of the inclusive span absent from the histogram. -/
theorem fill_missing_days_in_histogram_dense (h : SparseHistogram)
    (hne : h.keys.Nonempty) :
    ∀ dates counts,
      fill_missing_days_in_histogram h = Except.ok (dates, counts) →
      dates.length = h.keys.max' hne - h.keys.min' hne + 1 ∧
      counts.length = dates.length ∧
      List.Chain' (fun a b => b = a + 1) dates ∧
      (∀ d ∈ h.keys, (d, h.count d) ∈ dates.zip counts) ∧
      (∀ d, h.keys.min' hne ≤ d → d ≤ h.keys.max' hne → d ∉ h.keys →
        (d, 0) ∈ dates.zip counts) := by
  intro dates counts heq
  rw [fill_missing_days_eq h hne] at heq
  simp only [Except.ok.injEq, Prod.mk.injEq] at heq
  obtain ⟨hd, hc⟩ := heq
  subst hd
  subst hc
  have hzip :
      (List.range' (h.keys.min' hne) (h.keys.max' hne - h.keys.min' hne + 1)).zip
        ((List.range' (h.keys.min' hne)
            (h.keys.max' hne - h.keys.min' hne + 1)).map
          (fun d => if d ∈ h.keys then h.count d else 0)) =
      (List.range' (h.keys.min' hne) (h.keys.max' hne - h.keys.min' hne + 1)).map
        (fun a => (a, if a ∈ h.keys then h.count a else 0)) := by
    simpa using
      List.zip_map' id (fun d => if d ∈ h.keys then h.count d else 0)
        (List.range' (h.keys.min' hne) (h.keys.max' hne - h.keys.min' hne + 1))
  have hminmax : h.keys.min' hne ≤ h.keys.max' hne :=
    h.keys.min'_le _ (h.keys.max'_mem hne)
  refine ⟨by simp, by simp, chain'_succ_range' _ _, ?_, ?_⟩
  · intro d hd
    rw [hzip, List.mem_map]
    refine ⟨d, ?_, by simp [hd]⟩
    rw [List.mem_range'_1]
    have h1 := h.keys.min'_le d hd
    have h2 := h.keys.le_max' d hd
    omega
  · intro d h1 h2 h3
    rw [hzip, List.mem_map]
    refine ⟨d, ?_, by simp [h3]⟩
    rw [List.mem_range'_1]
    omega

/-- Witness for claim C1 at a concrete input: the histogram with 2 commits on
day 10 and 1 on day 12 fills to the series (10, 2), (11, 0), (12, 1). -/
theorem fill_missing_days_in_histogram_dense_witness :
    ex_hist.keys.Nonempty ∧
    fill_missing_days_in_histogram ex_hist = Except.ok ([10, 11, 12], [2, 0, 1]) ∧
    List.Chain' (fun a b => b = a + 1) [10, 11, 12] ∧
    (10, 2) ∈ List.zip [10, 11, 12] [2, 0, 1] ∧
    (11, 0) ∈ List.zip [10, 11, 12] [2, 0, 1] := by
  have heq : fill_missing_days_in_histogram ex_hist =
      Except.ok ([10, 11, 12], [2, 0, 1]) := by
    rw [fill_missing_days_eq ex_hist ⟨10, by decide⟩]
    rfl
  obtain ⟨-, -, hchain, hmem, hzero⟩ :=
    fill_missing_days_in_histogram_dense ex_hist
      (Finset.insert_nonempty 10 {12}) [10, 11, 12] [2, 0, 1] heq
  have h11 := hzero 11 (by decide) (by decide) (by decide)
  exact ⟨⟨10, by decide⟩, heq, hchain, by decide, h11⟩

/-- Counting the synthetic commits of a dense series that fall on a given day
sums the counts of the entries carrying that date. -/
theorem countP_dense_series (entries : List (Nat × Nat)) (d : Nat) :
    (dense_series_to_commits entries).countP
        (fun c => c.authored_date.day == d) =
      (entries.map (fun e => if e.1 = d then e.2 else 0)).sum := by
  induction entries with
  | nil => simp [dense_series_to_commits]
  | cons e rest ih =>
    simp only [dense_series_to_commits, List.countP_append,
      List.countP_replicate, List.map_cons, List.sum_cons, ih]
    by_cases hd : e.1 = d <;> simp [hd]

/-- Summing a single-day selection over a contiguous day range yields the
selected value when the day lies in the range and 0 otherwise. -/
theorem sum_ite_range' (g : Nat → Nat) (d : Nat) (n : Nat) :
    ∀ s, ((List.range' s n).map (fun a => if a = d then g a else 0)).sum =
      if s ≤ d ∧ d < s + n then g d else 0 := by
  induction n with
  | zero =>
    intro s
    rw [List.range'_zero, if_neg (by omega : ¬(s ≤ d ∧ d < s + 0))]
    simp
  | succ n ih =>
    intro s
    rw [List.range'_succ, List.map_cons, List.sum_cons, ih (s + 1)]
    by_cases ha : s = d
    · subst ha
      have hx : ¬(s + 1 ≤ s ∧ s < s + 1 + n) := by omega
      have hy : s ≤ s ∧ s < s + (n + 1) := by omega
      simp [hx, hy]
    · have hiff : (s + 1 ≤ d ∧ d < s + 1 + n) ↔ (s ≤ d ∧ d < s + (n + 1)) := by
        omega
      simp [ha, hiff]

/-- Claim C6: the histogram-then-gap-fill stage is idempotent on its own
output: for a non-empty sparse histogram (whose present keys, as produced by
the builder, carry nonzero counts), expanding the filled series back into
commits, rebuilding the histogram and gap-filling again reproduces the same
series exactly. -/
theorem fill_then_rebuild_idempotent (h : SparseHistogram)
    (hne : h.keys.Nonempty) (hpos : ∀ d ∈ h.keys, h.count d ≠ 0) :
    ∀ dates counts,
      fill_missing_days_in_histogram h = Except.ok (dates, counts) →
      fill_missing_days_in_histogram
          (build_commit_histogram_by_date
            (dense_series_to_commits (dates.zip counts))) =
        Except.ok (dates, counts) := by
  intro dates counts heq
  rw [fill_missing_days_eq h hne] at heq
  simp only [Except.ok.injEq, Prod.mk.injEq] at heq
  obtain ⟨hd, hc⟩ := heq
  subst hd
  subst hc
  set mn := h.keys.min' hne with hmn
  set mx := h.keys.max' hne with hmx
  set g : Nat → Nat := fun d => if d ∈ h.keys then h.count d else 0 with hg
  have hzip : (List.range' mn (mx - mn + 1)).zip
        ((List.range' mn (mx - mn + 1)).map g) =
      (List.range' mn (mx - mn + 1)).map (fun a => (a, g a)) := by
    simpa using List.zip_map' id g (List.range' mn (mx - mn + 1))
  rw [hzip]
  have hBcount : ∀ d,
      (build_commit_histogram_by_date
        (dense_series_to_commits
          ((List.range' mn (mx - mn + 1)).map (fun a => (a, g a))))).count d =
      g d := by
    intro d
    rw [build_count, countP_dense_series, List.map_map]
    have hcomp : ((fun e : Nat × Nat => if e.1 = d then e.2 else 0) ∘
        (fun a => (a, g a))) = fun a => if a = d then g a else 0 := rfl
    rw [hcomp, sum_ite_range' g d (mx - mn + 1) mn]
    by_cases hdr : mn ≤ d ∧ d < mn + (mx - mn + 1)
    · rw [if_pos hdr]
    · rw [if_neg hdr]
      by_cases hdk : d ∈ h.keys
      · have h1 := h.keys.min'_le d hdk
        have h2 := h.keys.le_max' d hdk
        rw [← hmn] at h1
        rw [← hmx] at h2
        omega
      · simp [hg, hdk]
  have hBkeys :
      (build_commit_histogram_by_date
        (dense_series_to_commits
          ((List.range' mn (mx - mn + 1)).map (fun a => (a, g a))))).keys =
      h.keys := by
    ext d
    rw [build_mem_keys_iff, hBcount d]
    constructor
    · intro hgd
      by_contra hdk
      simp [hg, hdk] at hgd
    · intro hdk
      simpa [hg, hdk] using hpos d hdk
  have hcongr := fill_missing_days_congr _ h hBkeys
    (fun d hd' => by
      rw [hBcount d, hBkeys] at *
      simp [hg, hd'])
  rw [hcongr, fill_missing_days_eq h hne]

/-- Witness for claim C6 at a concrete input: refilling the rebuilt histogram
of the series (10, 2), (11, 0), (12, 1) reproduces that series. -/
theorem fill_then_rebuild_idempotent_witness :
    ex_hist.keys.Nonempty ∧
    (∀ d ∈ ex_hist.keys, ex_hist.count d ≠ 0) ∧
    fill_missing_days_in_histogram
        (build_commit_histogram_by_date
          (dense_series_to_commits (List.zip [10, 11, 12] [2, 0, 1]))) =
      Except.ok ([10, 11, 12], [2, 0, 1]) := by
  have heq : fill_missing_days_in_histogram ex_hist =
      Except.ok ([10, 11, 12], [2, 0, 1]) := by
    rw [fill_missing_days_eq ex_hist ⟨10, by decide⟩]
    rfl
  exact ⟨⟨10, by decide⟩, by decide,
    fill_then_rebuild_idempotent ex_hist (Finset.insert_nonempty 10 {12})
      (by decide) [10, 11, 12] [2, 0, 1] heq⟩

/-- Claim C8: when pages 1 to 3 are full (each exactly the requested page
size) and page 4 is strictly short, the paginated fetch returns exactly the
concatenation of the four pages' records in API-returned order and requests
exactly pages 1, 2, 3 and 4 — nothing past the short page. -/
theorem fetch_all_commits_stops_at_short_page (pages : Nat → List Commit)
    (per_page page_budget : Nat)
    (h1 : (pages 1).length = per_page) (h2 : (pages 2).length = per_page)
    (h3 : (pages 3).length = per_page) (h4 : (pages 4).length < per_page)
    (hb : 4 ≤ page_budget) :
    fetch_all_commits pages per_page page_budget =
      (pages 1 ++ pages 2 ++ pages 3 ++ pages 4, [1, 2, 3, 4]) := by
  obtain ⟨k, rfl⟩ : ∃ k, page_budget = k + 4 := ⟨page_budget - 4, by omega⟩
  show fetch_pages_from pages per_page (k + 4) 1 = _
  simp [fetch_pages_from, h1, h2, h3, h4]

/-- Witness for claim C8 at a concrete input: a stub page source with three
full pages of size 2 and a short fourth page of size 1 yields the four pages'
concatenation and requests exactly pages 1 through 4. -/
theorem fetch_all_commits_stops_at_short_page_witness :
    (stub_pages 1).length = 2 ∧ (stub_pages 2).length = 2 ∧
    (stub_pages 3).length = 2 ∧ (stub_pages 4).length < 2 ∧ 4 ≤ 4 ∧
    fetch_all_commits stub_pages 2 4 =
      (stub_pages 1 ++ stub_pages 2 ++ stub_pages 3 ++ stub_pages 4,
       [1, 2, 3, 4]) :=
  ⟨rfl, rfl, rfl, by decide, by decide,
   fetch_all_commits_stops_at_short_page stub_pages 2 4 rfl rfl rfl
     (by decide) (by decide)⟩
